import Mathlib

/-!
Verification development for the adaptive spatial-resolution subsystem of a
meshless particle simulation engine (split/merge refinement of a particle
population).  Real-valued quantities are embedded as rationals, so that every
arithmetic step of the embedded code is exact and executable.  Definitions
translated directly from the source are marked with the source symbol; parts
of the subsystem whose implementation is not present in the analysed sources
(only their declarations are) are modelled from the specification and marked
`Modelled from the spec:`.
-/

namespace SPHinXsys

/-- Modelled from the spec: the small-epsilon floor constant used by the merge
blend denominator (`total_mass + TinyReal`); the library constant is 2.71051e-20. -/
def TinyReal : ℚ := 271051 / 10 ^ 25

/-- Life-cycle status tag of a particle: {normal, split-source, merge-source,
newly-created, invalidated}. -/
inductive LifeStatus
  | normal
  | splitSource
  | mergeSource
  | newlyCreated
  | invalidated
  deriving DecidableEq, Repr

/-- Position / velocity vectors of the 3d case. -/
abbrev Vecd := Fin 3 → ℚ

/-- The particle store: columnar, indexable storage of per-particle fields
(position, mass, volume, density, velocity, smoothing-length ratio,
life-status), with a live count `nReal` bounded by the reserved `capacity`. -/
structure Store where
  nReal : Nat
  capacity : Nat
  pos : Nat → Vecd
  mass : Nat → ℚ
  vol : Nat → ℚ
  rho : Nat → ℚ
  vel : Nat → Vecd
  hRatio : Nat → ℚ
  life : Nat → LifeStatus

/-- Squared euclidean distance between two positions. -/
def sqDist (x y : Vecd) : ℚ :=
  (Finset.univ : Finset (Fin 3)).sum (fun j => (x j - y j) ^ 2)

/-- Total mass of a merge group, summed over the collected `merge_mass` entries
(source: `mergeParticleDataValue::operator()`, the `total_mass` accumulation loop). -/
def totalMass (merge_mass : List ℚ) : ℚ := merge_mass.sum

/-- Mass-weighted blend of one carried scalar field over a merge group
(source: `mergeParticleDataValue::operator()`): the new value written at the
merged slot is `sum_k merge_mass[k] * value[merge_indices[k]]` divided by
`total_mass + TinyReal`.  Vector fields are blended componentwise by the same
formula. -/
def mergeParticleDataValue (merge_mass : List ℚ) (vals : List ℚ) : ℚ :=
  (List.zipWith (fun m v => m * v) merge_mass vals).sum / (totalMass merge_mass + TinyReal)

/-- Componentwise blend of a carried vector field over a merge group
(source: `mergeParticleDataValue` instantiated at vector type). -/
def mergeParticleDataVec (merge_mass : List ℚ) (vals : List Vecd) : Vecd :=
  fun j => mergeParticleDataValue merge_mass (vals.map (fun v => v j))

/-- Modelled from the spec: `updateMergedParticleInformation` (declared in the
source, body not present) blends the carried fields of the group into the
surviving anchor slot via the in-source `mergeParticleDataValue` and sets the
merged particle's mass to the sum of the group masses and its volume to
`mass / rho0`.  Life status is untouched here (invalidation is a separate
step of the merge engine). -/
def updateMergedParticleInformation (rho0inv : ℚ) (s : Store) (merged : Nat)
    (grp : List Nat) : Store :=
  let mm := grp.map s.mass
  let M := totalMass mm
  { s with
    pos := Function.update s.pos merged (mergeParticleDataVec mm (grp.map s.pos))
    vel := Function.update s.vel merged (mergeParticleDataVec mm (grp.map s.vel))
    mass := Function.update s.mass merged M
    vol := Function.update s.vol merged (M * rho0inv) }

/-- Modelled from the spec: the binary split of particle `i`
(`RefinementInPrescribedRegion::update` together with the pure virtual
`execFirstSplit` / `execOtherSplit` contract, bodies not present in the
analysed sources).  Exactly one new particle is appended at the next free
slot `nReal`; the parent's mass and volume are halved between parent and
offspring; the resolution ratio doubles for both; the parent moves by the
split shift and the offspring is placed at the mirrored displacement; the
offspring carries the parent's velocity and is tagged newly-created. -/
def splitParticle (s : Store) (i : Nat) (shift : Vecd) : Store :=
  let j := s.nReal
  let m := s.mass i
  let v := s.vol i
  let hr := s.hRatio i
  { s with
    nReal := s.nReal + 1
    mass := Function.update (Function.update s.mass i (m / 2)) j (m / 2)
    vol := Function.update (Function.update s.vol i (v / 2)) j (v / 2)
    hRatio := Function.update (Function.update s.hRatio i (2 * hr)) j (2 * hr)
    pos := Function.update (Function.update s.pos i (fun k => s.pos i k + shift k)) j
      (fun k => s.pos i k - shift k)
    vel := Function.update s.vel j (s.vel i)
    life := Function.update s.life j LifeStatus.newlyCreated }

/-- Errors the refinement engines can raise. -/
inductive RefineError
  | capacityViolation
  deriving DecidableEq, Repr

/-- Modelled from the spec: appending a split offspring checks the reserved
buffer capacity (`BaseSplitDynamics` reserves `body_buffer_width` slots at
construction); a split that would append beyond the reserved capacity raises
the fatal capacity-violation failure instead of mutating the store. -/
def trySplit (s : Store) (i : Nat) (shift : Vecd) : Except RefineError Store :=
  if s.nReal < s.capacity then Except.ok (splitParticle s i shift)
  else Except.error RefineError.capacityViolation

/-- One split pass: executes the requested splits in order, aborting at the
first capacity violation. -/
def runSplitPass : Store → List (Nat × Vecd) → Except RefineError Store
  | s, [] => Except.ok s
  | s, r :: rest =>
    match trySplit s r.1 r.2 with
    | Except.ok t => runSplitPass t rest
    | Except.error e => Except.error e

/-- Any number of split passes in sequence. -/
def runSplitPasses : Store → List (List (Nat × Vecd)) → Except RefineError Store
  | s, [] => Except.ok s
  | s, p :: ps =>
    match runSplitPass s p with
    | Except.ok t => runSplitPasses t ps
    | Except.error e => Except.error e

/-- Modelled from the spec: interpolated density at a candidate position `x`
(`ComputeDensityErrorInner::computeNewGeneratedParticleDensity`, body not
present): the kernel-weighted sum `sum_j mass_j * W(|x - x_j|, h_j)` over the
inner neighbors, paired with the untouched store to make the frame condition
explicit.  The kernel shape is a parameter (`kernelW` takes the squared
distance and the local smoothing-length ratio). -/
def computeNewGeneratedParticleDensity (kernelW : ℚ → ℚ → ℚ) (s : Store)
    (neighbors : List Nat) (x : Vecd) : ℚ × Store :=
  ((neighbors.map (fun j => s.mass j * kernelW (sqDist x (s.pos j)) (s.hRatio j))).sum, s)

/-- Modelled from the spec: the wall-aware variant
(`ComputeDensityErrorWithWall::computeNewGeneratedParticleDensity`) adds the
contributions of a second, boundary-owned neighbor population with its own
volume field (`contact_Vol_`), using the same kernel; again paired with the
untouched store. -/
def computeNewGeneratedParticleDensityWithWall (kernelW : ℚ → ℚ → ℚ) (rho0 : ℚ)
    (s : Store) (neighbors : List Nat) (wallNeighbors : List (Vecd × ℚ))
    (x : Vecd) (wallHratio : ℚ) : ℚ × Store :=
  ((computeNewGeneratedParticleDensity kernelW s neighbors x).1 +
    (wallNeighbors.map (fun w => rho0 * w.2 * kernelW (sqDist x w.1) wallHratio)).sum, s)

/-- Modelled from the spec: per-neighbor density-error contributions
(`densityErrorOfNeighborParticles`, body not present): for each neighbor the
kernel-weighted deviation induced at its slot by the candidate placement,
computed read-only against the store. -/
def densityErrorOfNeighborParticles (kernelW : ℚ → ℚ → ℚ) (s : Store)
    (neighbors : List Nat) (x : Vecd) (rho0 : ℚ) : List ℚ × Store :=
  (neighbors.map (fun j =>
    s.mass j * kernelW (sqDist x (s.pos j)) (s.hRatio j) - rho0), s)

/-- Modelled from the spec: `positionLimitation` clamps a computed
displacement magnitude into the interval `[min_distance, max_distance]`
(a displacement longer than `max_distance` is scaled down onto the outer
bound, one shorter than `min_distance` is scaled up onto the inner bound). -/
def positionLimitation (r minDistance maxDistance : ℚ) : ℚ :=
  if maxDistance < r then maxDistance
  else if r < minDistance then minDistance
  else r

/-- Modelled from the spec: `getPositionFromDensityError` derives a candidate
displacement from the local density error and commits only its
position-limited magnitude; it is read-only on the store (paired unchanged). -/
def getPositionFromDensityError (kernelW : ℚ → ℚ → ℚ) (s : Store)
    (neighbors : List Nat) (x0 : Vecd) (rho0 stepScale minDistance maxDistance : ℚ) :
    ℚ × Store :=
  let rhoNew := (computeNewGeneratedParticleDensity kernelW s neighbors x0).1
  let raw := stepScale * (rhoNew - rho0)
  (positionLimitation |raw| minDistance maxDistance, s)

/-- Modelled from the spec: split eligibility
(`RefinementInPrescribedRegion::checkSplit`, body not present): particle `i`
is eligible when its resolution ratio is below the region target, its
position lies inside the refinement region, and it is live.  Pure predicate
over the store. -/
def checkSplit (s : Store) (inRegion : Vecd → Bool) (targetRatio : ℚ) (i : Nat) : Bool :=
  decide (s.hRatio i < targetRatio) && inRegion (s.pos i) &&
    decide (s.life i ≠ LifeStatus.invalidated)

/-- Modelled from the spec: `findMergeParticles` performs a bounded spatial
search around particle `i` (search radius `searchSize`, minimum inter-particle
distance `searchDistance`, both on squared distances here), collecting live,
not-yet-tagged candidates.  Pure function of the store and the tag array. -/
def findMergeParticles (s : Store) (tagMerged : Nat → Bool) (i : Nat)
    (searchSize searchDistance : ℚ) : List Nat :=
  (List.range s.nReal).filter (fun j =>
    decide (j ≠ i) && !(tagMerged j) && decide (s.life j ≠ LifeStatus.invalidated) &&
    decide (sqDist (s.pos i) (s.pos j) ≤ searchSize) &&
    decide (searchDistance ≤ sqDist (s.pos i) (s.pos j)))

/-- Modelled from the spec: `mergeCriteria` (body not present) looks for a
merge group seeded at particle `i` inside the prescribed area; it returns
false (with an empty group) when no valid group exists.  Pure predicate. -/
def mergeCriteria (s : Store) (tagMerged : Nat → Bool) (inArea : Vecd → Bool)
    (i : Nat) (searchSize searchDistance : ℚ) : Bool × List Nat :=
  if !(tagMerged i) && inArea (s.pos i) && decide (s.life i ≠ LifeStatus.invalidated) then
    let grp := findMergeParticles s tagMerged i searchSize searchDistance
    (!grp.isEmpty, i :: grp)
  else (false, [])

/-- State-passing form of `checkSplit`, returning the (unchanged) store it
evaluated against, to make the absence of hidden mutation explicit. -/
def checkSplitRun (s : Store) (inRegion : Vecd → Bool) (targetRatio : ℚ) (i : Nat) :
    Bool × Store :=
  (checkSplit s inRegion targetRatio i, s)

/-- State-passing form of `mergeCriteria`, returning the (unchanged) store and
merge-tag array it evaluated against. -/
def mergeCriteriaRun (s : Store) (tagMerged : Nat → Bool) (inArea : Vecd → Bool)
    (i : Nat) (searchSize searchDistance : ℚ) :
    (Bool × List Nat) × (Store × (Nat → Bool)) :=
  (mergeCriteria s tagMerged inArea i searchSize searchDistance, (s, tagMerged))

/-- Live particle indices: the iteration domain of a pass filters invalidated
slots out (soft-delete keeps the slots in the arrays). -/
def liveIndices (s : Store) : List Nat :=
  (List.range s.nReal).filter (fun j => decide (s.life j ≠ LifeStatus.invalidated))

/-- Modelled from the spec: neighbor queries of a refinement pass filter
invalidated slots out of the returned index set. -/
def neighborQuery (s : Store) (i : Nat) (radius : ℚ) : List Nat :=
  (liveIndices s).filter (fun j => decide (sqDist (s.pos i) (s.pos j) ≤ radius))

/-- Invalidate every group member other than the surviving anchor. -/
def invalidateOthers (life : Nat → LifeStatus) (anchor : Nat) (grp : List Nat) :
    Nat → LifeStatus :=
  fun j => if j ≠ anchor ∧ j ∈ grp then LifeStatus.invalidated else life j

/-- Modelled from the spec: one merge step of a refinement pass at seed `i`
(`mergingModel`, body not present): invalidated seeds are skipped; otherwise
the live group found around `i` is blended into the anchor slot `i` via
`updateMergedParticleInformation` and the other members are invalidated. -/
def mergeStep (rho0inv radius : ℚ) (s : Store) (i : Nat) : Store :=
  if s.life i = LifeStatus.invalidated then s
  else if (neighborQuery s i radius).length < 2 then s
  else
    { updateMergedParticleInformation rho0inv s i (neighborQuery s i radius) with
      life :=
        invalidateOthers
          (updateMergedParticleInformation rho0inv s i (neighborQuery s i radius)).life
          i (neighborQuery s i radius) }

/-- Indices read or written by one merge step: nothing when the seed is
skipped as invalidated, otherwise the seed together with its (live) neighbor
query result. -/
def mergeStepAccessed (s : Store) (radius : ℚ) (i : Nat) : List Nat :=
  if s.life i = LifeStatus.invalidated then [] else i :: neighborQuery s i radius

/-- Accessed-index trace of a merge pass over a seed list, threading the store
through the steps. -/
def runMergePassTrace (rho0inv radius : ℚ) : Store → List Nat → List (List Nat)
  | _, [] => []
  | s, i :: rest =>
    mergeStepAccessed s radius i ::
      runMergePassTrace rho0inv radius (mergeStep rho0inv radius s i) rest

/-- The virtual hooks a merge policy can override (`mergeCriteria`,
`mergingModel`, `setupDynamics`). -/
structure MergeHooks where
  criteria : Store → Nat → Bool × List Nat
  merging : Store → List Nat → Store
  setup : Store → ℚ → Store

/-- Modelled from the spec: the per-particle merge interaction of
`ParticleMergeWithPrescribedArea` dispatches through the virtual hooks: when
the criteria find a group at `i`, the merging model is applied, otherwise the
store is left unchanged. -/
def ParticleMergeWithPrescribedArea.interaction (h : MergeHooks) (s : Store)
    (i : Nat) (dt : ℚ) : Store :=
  let c := h.criteria s i
  if c.1 then h.merging s c.2 else s

/-- Source `MergeWithMinimumDensityErrorInner::interaction`: delegates to
`ParticleMergeWithPrescribedArea::interaction` on the same arguments. -/
def MergeWithMinimumDensityErrorInner.interaction (h : MergeHooks) (s : Store)
    (i : Nat) (dt : ℚ) : Store :=
  ParticleMergeWithPrescribedArea.interaction h s i dt

/-- Source `MergeWithMinimumDensityErrorWithWall::interaction`: delegates to
`MergeWithMinimumDensityErrorInner::interaction` on the same arguments. -/
def MergeWithMinimumDensityErrorWithWall.interaction (h : MergeHooks) (s : Store)
    (i : Nat) (dt : ℚ) : Store :=
  MergeWithMinimumDensityErrorInner.interaction h s i dt

/-- Largest absolute value occurring in a list of field values (zero for the
empty list); the bound used to state that blends are bounded. -/
def maxAbs (vals : List ℚ) : ℚ :=
  vals.foldr (fun v a => max |v| a) 0

/-- A small concrete store used by the witness theorems: two live particles of
mass 2 with one reserved buffer slot. -/
def demoStore : Store where
  nReal := 2
  capacity := 3
  pos := fun j => fun _ => (j : ℚ)
  mass := fun _ => 2
  vol := fun _ => 2
  rho := fun _ => 1
  vel := fun _ => fun _ => 1
  hRatio := fun _ => 1
  life := fun _ => LifeStatus.normal

/-- A concrete store with three slots whose slot 2 is already invalidated. -/
def demoStoreInvalid : Store :=
  { demoStore with
    nReal := 3
    life := fun j => if j = 2 then LifeStatus.invalidated else LifeStatus.normal }

/-- Bounds of the position-limitation clamp: under `minDistance ≤ maxDistance`
the clamped magnitude lies in the prescribed interval. -/
theorem positionLimitation_mem (r minDistance maxDistance : ℚ)
    (hle : minDistance ≤ maxDistance) :
    minDistance ≤ positionLimitation r minDistance maxDistance ∧
      positionLimitation r minDistance maxDistance ≤ maxDistance := by
  unfold positionLimitation
  split_ifs with h1 h2
  · exact ⟨hle, le_refl _⟩
  · exact ⟨le_refl _, hle⟩
  · exact ⟨le_of_not_lt h2, le_of_not_lt h1⟩

/-- C1: a binary split conserves mass exactly — the parent's halved mass plus
the single appended offspring's mass equals the parent's mass before the
split — and appends exactly one new particle. -/
theorem split_mass_conserved (s : Store) (i : Nat) (shift : Vecd)
    (h : i < s.nReal) :
    (splitParticle s i shift).mass i + (splitParticle s i shift).mass s.nReal =
        s.mass i ∧
      (splitParticle s i shift).nReal = s.nReal + 1 := by
  have hne : i ≠ s.nReal := Nat.ne_of_lt h
  refine ⟨?_, rfl⟩
  simp [splitParticle, Function.update_apply, hne, Ne.symm hne]

/-- Witness for C1 on the concrete demo store. -/
theorem split_mass_conserved_witness :
    0 < demoStore.nReal ∧
    ((splitParticle demoStore 0 (fun _ => 1)).mass 0 +
        (splitParticle demoStore 0 (fun _ => 1)).mass demoStore.nReal =
          demoStore.mass 0 ∧
      (splitParticle demoStore 0 (fun _ => 1)).nReal = demoStore.nReal + 1) :=
  ⟨by decide, split_mass_conserved demoStore 0 (fun _ => 1) (by decide)⟩

/-- C2: the merged particle's mass equals the sum of the group masses (it is
set to the exact sum, hence in particular within the 1e-9 relative
tolerance). -/
theorem mergedParticle_mass_conserved (rho0inv : ℚ) (s : Store) (merged : Nat)
    (grp : List Nat) (hne : grp ≠ [])
    (hpos : 0 < totalMass (grp.map s.mass)) :
    |(updateMergedParticleInformation rho0inv s merged grp).mass merged -
        totalMass (grp.map s.mass)| ≤
      1 / 10 ^ 9 * |totalMass (grp.map s.mass)| := by
  have hmass : (updateMergedParticleInformation rho0inv s merged grp).mass merged =
      totalMass (grp.map s.mass) := by
    simp [updateMergedParticleInformation]
  rw [hmass, sub_self, abs_zero]
  positivity

/-- Witness for C2 on the concrete demo store, merging the group {0, 1}. -/
theorem mergedParticle_mass_conserved_witness :
    ([0, 1] : List Nat) ≠ [] ∧
    0 < totalMass (([0, 1] : List Nat).map demoStore.mass) ∧
    |(updateMergedParticleInformation 1 demoStore 0 [0, 1]).mass 0 -
        totalMass (([0, 1] : List Nat).map demoStore.mass)| ≤
      1 / 10 ^ 9 * |totalMass (([0, 1] : List Nat).map demoStore.mass)| :=
  ⟨by decide, by norm_num [totalMass, demoStore],
    mergedParticle_mass_conserved 1 demoStore 0 [0, 1] (by decide)
      (by norm_num [totalMass, demoStore])⟩

/-- C5: every density-error routine of the estimator (interior density, the
wall-aware density, the per-neighbor errors and the placement search) is a
pure function of the store and the candidate data: the store it returns is
the store it was given, so no particle-store field is mutated. -/
theorem densityError_estimator_pure (kernelW : ℚ → ℚ → ℚ) (s : Store)
    (neighbors : List Nat) (wallNeighbors : List (Vecd × ℚ)) (x : Vecd)
    (rho0 wallHratio stepScale minDistance maxDistance : ℚ) :
    (computeNewGeneratedParticleDensity kernelW s neighbors x).2 = s ∧
    (computeNewGeneratedParticleDensityWithWall kernelW rho0 s neighbors
        wallNeighbors x wallHratio).2 = s ∧
    (densityErrorOfNeighborParticles kernelW s neighbors x rho0).2 = s ∧
    (getPositionFromDensityError kernelW s neighbors x rho0 stepScale
        minDistance maxDistance).2 = s :=
  ⟨rfl, rfl, rfl, rfl⟩

/-- C6: the committed placement magnitude produced by the placement search is
position-limited, hence lies within `[min_distance, max_distance]` of the
generating particle. -/
theorem committed_placement_within_bounds (kernelW : ℚ → ℚ → ℚ) (s : Store)
    (neighbors : List Nat) (x0 : Vecd)
    (rho0 stepScale minDistance maxDistance : ℚ)
    (hle : minDistance ≤ maxDistance) :
    minDistance ≤ (getPositionFromDensityError kernelW s neighbors x0 rho0
        stepScale minDistance maxDistance).1 ∧
      (getPositionFromDensityError kernelW s neighbors x0 rho0 stepScale
        minDistance maxDistance).1 ≤ maxDistance :=
  positionLimitation_mem _ _ _ hle

/-- Witness for C6 at a concrete clamp interval [1, 2]. -/
theorem committed_placement_within_bounds_witness :
    (1 : ℚ) ≤ 2 ∧
    ((1 : ℚ) ≤ (getPositionFromDensityError (fun _ _ => 0) demoStore []
        (fun _ => 0) 0 1 1 2).1 ∧
      (getPositionFromDensityError (fun _ _ => 0) demoStore [] (fun _ => 0)
        0 1 1 2).1 ≤ 2) :=
  ⟨by norm_num,
    committed_placement_within_bounds (fun _ _ => 0) demoStore [] (fun _ => 0)
      0 1 1 2 (by norm_num)⟩

/-- C7: `checkSplit` and `mergeCriteria` are idempotent predicates — evaluated
twice on unchanged state they return identical results, and their
state-passing forms hand back the store (and the merge-tag array) exactly as
received: predicate evaluation performs no hidden mutation. -/
theorem predicates_idempotent (s : Store) (inRegion : Vecd → Bool)
    (targetRatio : ℚ) (tagMerged : Nat → Bool) (inArea : Vecd → Bool) (i : Nat)
    (searchSize searchDistance : ℚ) :
    (checkSplitRun s inRegion targetRatio i).2 = s ∧
    (checkSplitRun (checkSplitRun s inRegion targetRatio i).2 inRegion
        targetRatio i).1 = (checkSplitRun s inRegion targetRatio i).1 ∧
    (mergeCriteriaRun s tagMerged inArea i searchSize searchDistance).2 =
        (s, tagMerged) ∧
    (mergeCriteriaRun
        (mergeCriteriaRun s tagMerged inArea i searchSize searchDistance).2.1
        (mergeCriteriaRun s tagMerged inArea i searchSize searchDistance).2.2
        inArea i searchSize searchDistance).1 =
      (mergeCriteriaRun s tagMerged inArea i searchSize searchDistance).1 :=
  ⟨rfl, rfl, rfl, rfl⟩

/-- C10: the interaction entry points of the minimum-density-error merge
variants are pure delegation — for every hook assignment, particle index,
store and time step they compute exactly what the base
`ParticleMergeWithPrescribedArea` interaction computes. -/
theorem interaction_pure_delegation (h : MergeHooks) (s : Store) (i : Nat)
    (dt : ℚ) :
    MergeWithMinimumDensityErrorInner.interaction h s i dt =
        ParticleMergeWithPrescribedArea.interaction h s i dt ∧
      MergeWithMinimumDensityErrorWithWall.interaction h s i dt =
        ParticleMergeWithPrescribedArea.interaction h s i dt :=
  ⟨rfl, rfl⟩

/-- A successful single split keeps the live count within the reserved capacity
and never changes the capacity. -/
theorem trySplit_ok_inv {s t : Store} {i : Nat} {shift : Vecd}
    (hok : trySplit s i shift = Except.ok t) :
    t.nReal ≤ t.capacity ∧ t.capacity = s.capacity := by
  unfold trySplit at hok
  split_ifs at hok with h
  · cases hok
    exact ⟨h, rfl⟩

/-- A successful split pass keeps the live count within the reserved capacity
and never changes the capacity. -/
theorem runSplitPass_inv : ∀ (reqs : List (Nat × Vecd)) (s t : Store),
    s.nReal ≤ s.capacity → runSplitPass s reqs = Except.ok t →
    t.nReal ≤ t.capacity ∧ t.capacity = s.capacity
  | [], s, t, hs, hok => by
    cases hok
    exact ⟨hs, rfl⟩
  | r :: rest, s, t, hs, hok => by
    rw [runSplitPass] at hok
    cases htr : trySplit s r.1 r.2 with
    | error e => rw [htr] at hok; cases hok
    | ok u =>
      rw [htr] at hok
      obtain ⟨hu, hcap⟩ := trySplit_ok_inv htr
      obtain ⟨h1, h2⟩ := runSplitPass_inv rest u t hu hok
      exact ⟨h1, h2.trans hcap⟩

/-- Any successful sequence of split passes keeps the live count within the
reserved capacity and never changes the capacity. -/
theorem runSplitPasses_inv : ∀ (passes : List (List (Nat × Vecd))) (s t : Store),
    s.nReal ≤ s.capacity → runSplitPasses s passes = Except.ok t →
    t.nReal ≤ t.capacity ∧ t.capacity = s.capacity
  | [], s, t, hs, hok => by
    cases hok
    exact ⟨hs, rfl⟩
  | p :: ps, s, t, hs, hok => by
    rw [runSplitPasses] at hok
    cases htr : runSplitPass s p with
    | error e => rw [htr] at hok; cases hok
    | ok u =>
      rw [htr] at hok
      obtain ⟨hu, hcap⟩ := runSplitPass_inv p s u hs htr
      obtain ⟨h1, h2⟩ := runSplitPasses_inv ps u t hu hok
      exact ⟨h1, h2.trans hcap⟩

/-- C4: with a buffer reserved at width `W` at construction, after any number
of successful split passes the live particle count stays at most the initial
count plus `W`; and on any store whose live count has reached its capacity, a
further split raises the capacity-violation failure instead of succeeding. -/
theorem split_capacity_bound (s : Store) (passes : List (List (Nat × Vecd)))
    (W : Nat) (t u : Store) (i : Nat) (shift : Vecd)
    (hcap : s.capacity = s.nReal + W)
    (hrun : runSplitPasses s passes = Except.ok t)
    (hfull : u.capacity ≤ u.nReal) :
    t.nReal ≤ s.nReal + W ∧
      trySplit u i shift = Except.error RefineError.capacityViolation := by
  constructor
  · have hs : s.nReal ≤ s.capacity := by
      rw [hcap]; exact Nat.le_add_right _ _
    obtain ⟨h1, h2⟩ := runSplitPasses_inv passes s t hs hrun
    rw [h2, hcap] at h1
    exact h1
  · unfold trySplit
    rw [if_neg (not_lt.mpr hfull)]

/-- Witness for C4: on the demo store (two live particles, capacity three,
reserved width one) one pass with one split stays within the bound, and a
split on a full store raises the capacity violation. -/
theorem split_capacity_bound_witness :
    demoStore.capacity = demoStore.nReal + 1 ∧
    runSplitPasses demoStore [[(0, fun _ => 0)]] =
      Except.ok (splitParticle demoStore 0 (fun _ => 0)) ∧
    ({ demoStore with nReal := 3 } : Store).capacity ≤
      ({ demoStore with nReal := 3 } : Store).nReal ∧
    ((splitParticle demoStore 0 (fun _ => 0)).nReal ≤ demoStore.nReal + 1 ∧
      trySplit { demoStore with nReal := 3 } 0 (fun _ => 0) =
        Except.error RefineError.capacityViolation) :=
  ⟨rfl, rfl, by decide,
    split_capacity_bound demoStore [[(0, fun _ => 0)]] 1
      (splitParticle demoStore 0 (fun _ => 0)) { demoStore with nReal := 3 }
      0 (fun _ => 0) rfl rfl (by decide)⟩

/-- Scalar momentum bound for the merge blend: when the group's total mass is
at least 1e-10, the blended value times the total mass deviates from the
mass-weighted sum by at most 1e-9 relative (the deviation factor is exactly
`TinyReal / (total_mass + TinyReal)` from the guarded denominator). -/
theorem merge_momentum_scalar (mm vs : List ℚ)
    (hM : 1 / 10 ^ 10 ≤ totalMass mm) :
    |totalMass mm * mergeParticleDataValue mm vs -
        (List.zipWith (fun m v => m * v) mm vs).sum| ≤
      1 / 10 ^ 9 * |(List.zipWith (fun m v => m * v) mm vs).sum| := by
  have htiny : (0 : ℚ) < TinyReal := by norm_num [TinyReal]
  have hMpos : (0 : ℚ) < totalMass mm := lt_of_lt_of_le (by norm_num) hM
  have hden : (0 : ℚ) < totalMass mm + TinyReal := by linarith
  have hval : mergeParticleDataValue mm vs =
      (List.zipWith (fun m v => m * v) mm vs).sum / (totalMass mm + TinyReal) := rfl
  have key : totalMass mm *
        ((List.zipWith (fun m v => m * v) mm vs).sum / (totalMass mm + TinyReal)) -
        (List.zipWith (fun m v => m * v) mm vs).sum =
      -((List.zipWith (fun m v => m * v) mm vs).sum *
        (TinyReal / (totalMass mm + TinyReal))) := by
    field_simp
    ring
  rw [hval, key, abs_neg, abs_mul,
    abs_of_nonneg (le_of_lt (div_pos htiny hden))]
  have hratio : TinyReal / (totalMass mm + TinyReal) ≤ 1 / 10 ^ 9 := by
    rw [div_le_iff₀ hden]
    have h2 : (1 : ℚ) / 10 ^ 9 * (1 / 10 ^ 10 + TinyReal) ≤
        1 / 10 ^ 9 * (totalMass mm + TinyReal) := by
      apply mul_le_mul_of_nonneg_left _ (by norm_num)
      linarith
    have h3 : TinyReal ≤ (1 : ℚ) / 10 ^ 9 * (1 / 10 ^ 10 + TinyReal) := by
      norm_num [TinyReal]
    linarith
  calc |(List.zipWith (fun m v => m * v) mm vs).sum| *
        (TinyReal / (totalMass mm + TinyReal)) ≤
      |(List.zipWith (fun m v => m * v) mm vs).sum| * (1 / 10 ^ 9) :=
        mul_le_mul_of_nonneg_left hratio (abs_nonneg _)
    _ = 1 / 10 ^ 9 * |(List.zipWith (fun m v => m * v) mm vs).sum| := mul_comm _ _

/-- C3 (amended): for a merge group whose total mass is at least 1e-10, linear
momentum is conserved componentwise within 1e-9 relative tolerance — the
merged velocity is the mass-weighted blend of the group's velocities (divided
by `total_mass + TinyReal`), so the merged mass times the merged velocity
matches the sum of the members' momenta up to the TinyReal denominator
floor. -/
theorem merge_momentum_conserved (mm : List ℚ) (vs : List Vecd)
    (hM : 1 / 10 ^ 10 ≤ totalMass mm) (j : Fin 3) :
    |totalMass mm * mergeParticleDataVec mm vs j -
        (List.zipWith (fun m v => m * v j) mm vs).sum| ≤
      1 / 10 ^ 9 * |(List.zipWith (fun m v => m * v j) mm vs).sum| := by
  have base := merge_momentum_scalar mm (vs.map (fun v => v j)) hM
  rw [List.zipWith_map_right] at base
  exact base

/-- Witness for C3 (amended) at the one-member group of mass 1 and velocity 2. -/
theorem merge_momentum_conserved_witness :
    1 / 10 ^ 10 ≤ totalMass [(1 : ℚ)] ∧
    |totalMass [(1 : ℚ)] *
        mergeParticleDataVec [(1 : ℚ)] [fun _ => 2] 0 -
        (List.zipWith (fun m v => m * v 0) [(1 : ℚ)]
          [(fun _ => 2 : Vecd)]).sum| ≤
      1 / 10 ^ 9 * |(List.zipWith (fun m v => m * v 0) [(1 : ℚ)]
          [(fun _ => 2 : Vecd)]).sum| :=
  ⟨by norm_num [totalMass],
    merge_momentum_conserved [(1 : ℚ)] [fun _ => 2]
      (by norm_num [totalMass]) 0⟩

/-- Counterexample to C3 as stated: a merge group with positive total mass
(one member of mass `TinyReal`) whose blended momentum misses the group
momentum by a factor of one half — far beyond the 1e-9 relative tolerance —
because the blend's denominator `total_mass + TinyReal` doubles the divisor
for masses of the order of the TinyReal floor. -/
theorem merge_momentum_tiny_mass_cex :
    0 < totalMass [TinyReal] ∧
    ¬ |totalMass [TinyReal] * mergeParticleDataValue [TinyReal] [(1 : ℚ)] -
          (List.zipWith (fun m v => m * v) [TinyReal] [(1 : ℚ)]).sum| ≤
        1 / 10 ^ 9 *
          |(List.zipWith (fun m v => m * v) [TinyReal] [(1 : ℚ)]).sum| := by
  constructor
  · norm_num [totalMass, TinyReal]
  · norm_num [totalMass, TinyReal, mergeParticleDataValue]
    rw [abs_of_pos
        (by norm_num : (0 : ℚ) < 271051 / 10000000000000000000000000),
      abs_of_pos
        (by norm_num : (0 : ℚ) < 271051 / 20000000000000000000000000)]
    norm_num

/-- The largest absolute field value of a group is nonnegative. -/
theorem maxAbs_nonneg : ∀ vals : List ℚ, 0 ≤ maxAbs vals
  | [] => le_refl 0
  | v :: rest => by
    have ih := maxAbs_nonneg rest
    have : maxAbs (v :: rest) = max |v| (maxAbs rest) := rfl
    rw [this]
    exact le_trans ih (le_max_right _ _)

/-- Total mass of a group with nonnegative member masses is nonnegative. -/
theorem totalMass_nonneg (mm : List ℚ) (h : ∀ m ∈ mm, 0 ≤ m) :
    0 ≤ totalMass mm :=
  List.sum_nonneg h

/-- The mass-weighted sum of field values over a group is bounded by the total
mass times the largest absolute field value. -/
theorem zip_sum_abs_le : ∀ (mm vs : List ℚ), (∀ m ∈ mm, 0 ≤ m) →
    |(List.zipWith (fun m v => m * v) mm vs).sum| ≤ totalMass mm * maxAbs vs
  | [], vs, _ => by simp [totalMass]
  | m :: rest, [], h => by simp [totalMass, maxAbs]
  | m :: rest, v :: vrest, h => by
    have hm : 0 ≤ m := h m (by simp)
    have hrest : ∀ x ∈ rest, 0 ≤ x := fun x hx => h x (by simp [hx])
    have ih := zip_sum_abs_le rest vrest hrest
    have h1 : |(List.zipWith (fun m v => m * v) (m :: rest) (v :: vrest)).sum| ≤
        |m * v| + |(List.zipWith (fun m v => m * v) rest vrest).sum| := by
      simp only [List.zipWith_cons_cons, List.sum_cons]
      exact abs_add _ _
    have h2 : |m * v| = m * |v| := by rw [abs_mul, abs_of_nonneg hm]
    have hmax : maxAbs (v :: vrest) = max |v| (maxAbs vrest) := rfl
    have h3 : m * |v| ≤ m * maxAbs (v :: vrest) := by
      apply mul_le_mul_of_nonneg_left _ hm
      rw [hmax]
      exact le_max_left _ _
    have h4 : totalMass rest * maxAbs vrest ≤
        totalMass rest * maxAbs (v :: vrest) := by
      apply mul_le_mul_of_nonneg_left _ (totalMass_nonneg rest hrest)
      rw [hmax]
      exact le_max_right _ _
    have h5 : totalMass (m :: rest) * maxAbs (v :: vrest) =
        m * maxAbs (v :: vrest) + totalMass rest * maxAbs (v :: vrest) := by
      simp only [totalMass, List.sum_cons]
      ring
    linarith

/-- C8: the merge blend's denominator carries the TinyReal floor, so for any
group with nonnegative member masses (in particular zero total mass or
coincident positions) the denominator is strictly positive — no division by
zero occurs — and the blended value stays bounded by the largest absolute
field value of the group. -/
theorem merge_blend_denominator_guarded (mm vs : List ℚ)
    (h : ∀ m ∈ mm, 0 ≤ m) :
    0 < totalMass mm + TinyReal ∧
      |mergeParticleDataValue mm vs| ≤ maxAbs vs := by
  have hM : 0 ≤ totalMass mm := totalMass_nonneg mm h
  have htiny : (0 : ℚ) < TinyReal := by norm_num [TinyReal]
  have hden : 0 < totalMass mm + TinyReal := by linarith
  refine ⟨hden, ?_⟩
  have hval : mergeParticleDataValue mm vs =
      (List.zipWith (fun m v => m * v) mm vs).sum / (totalMass mm + TinyReal) := rfl
  rw [hval, abs_div, abs_of_pos hden, div_le_iff₀ hden]
  have h1 := zip_sum_abs_le mm vs h
  have h2 : totalMass mm * maxAbs vs ≤ (totalMass mm + TinyReal) * maxAbs vs := by
    apply mul_le_mul_of_nonneg_right _ (maxAbs_nonneg vs)
    linarith
  calc |(List.zipWith (fun m v => m * v) mm vs).sum| ≤
      totalMass mm * maxAbs vs := h1
    _ ≤ (totalMass mm + TinyReal) * maxAbs vs := h2
    _ = maxAbs vs * (totalMass mm + TinyReal) := mul_comm _ _

/-- Witness for C8 at the degenerate group of two zero-mass members. -/
theorem merge_blend_denominator_guarded_witness :
    (∀ m ∈ ([0, 0] : List ℚ), 0 ≤ m) ∧
    (0 < totalMass ([0, 0] : List ℚ) + TinyReal ∧
      |mergeParticleDataValue ([0, 0] : List ℚ) [(5 : ℚ), 7]| ≤
        maxAbs [(5 : ℚ), 7]) :=
  ⟨by norm_num,
    merge_blend_denominator_guarded [0, 0] [(5 : ℚ), 7] (by norm_num)⟩

/-- Members of a neighbor query result are live: the query filters invalidated
slots out. -/
theorem mem_neighborQuery_live (s : Store) (i j : Nat) (radius : ℚ)
    (hj : j ∈ neighborQuery s i radius) :
    s.life j ≠ LifeStatus.invalidated := by
  unfold neighborQuery liveIndices at hj
  simp only [List.mem_filter, decide_eq_true_eq] at hj
  exact hj.1.2

/-- A merge step never resurrects an invalidated slot. -/
theorem mergeStep_preserves_invalidated (rho0inv radius : ℚ) (s : Store)
    (i j : Nat) (hj : s.life j = LifeStatus.invalidated) :
    (mergeStep rho0inv radius s i).life j = LifeStatus.invalidated := by
  unfold mergeStep
  split_ifs with h1 h2
  · exact hj
  · exact hj
  · show invalidateOthers
      (updateMergedParticleInformation rho0inv s i (neighborQuery s i radius)).life
      i (neighborQuery s i radius) j = LifeStatus.invalidated
    unfold invalidateOthers
    split_ifs with h3
    · rfl
    · exact hj

/-- C9: once a particle is marked invalidated, no later step of the merge pass
references it — it appears in no subsequent accessed-index set (neither as a
seed nor in any neighbor query, hence in no field read or write of the
pass). -/
theorem invalidated_never_referenced (rho0inv radius : ℚ) (s : Store)
    (seeds : List Nat) (j : Nat)
    (hj : s.life j = LifeStatus.invalidated) :
    j ∉ (runMergePassTrace rho0inv radius s seeds).flatten := by
  induction seeds generalizing s with
  | nil => simp [runMergePassTrace]
  | cons i rest ih =>
    rw [runMergePassTrace, List.flatten_cons, List.mem_append]
    push_neg
    constructor
    · unfold mergeStepAccessed
      split_ifs with hskip
      · simp
      · intro hmem
        rcases List.mem_cons.mp hmem with hcase | hcase
        · exact hskip (hcase ▸ hj)
        · exact mem_neighborQuery_live s i j radius hcase hj
    · exact ih (mergeStep rho0inv radius s i)
        (mergeStep_preserves_invalidated rho0inv radius s i j hj)

/-- Witness for C9: on the demo store whose slot 2 is invalidated, slot 2 is
referenced by no step of a pass over the seeds [0, 1, 2]. -/
theorem invalidated_never_referenced_witness :
    demoStoreInvalid.life 2 = LifeStatus.invalidated ∧
    2 ∉ (runMergePassTrace 1 9 demoStoreInvalid [0, 1, 2]).flatten :=
  ⟨rfl, invalidated_never_referenced 1 9 demoStoreInvalid [0, 1, 2] 2 rfl⟩

end SPHinXsys
